import Mathlib

/-
Verification of the delay-augmented spiking network code of the Lip_Reading_SNN
repository (src/SNN_models.py, src/lip_reading.py) against its natural-language
specification.

The Python code is shallowly embedded:
* tensors are total functions from index types to ℝ;
* the state of a `Dcls3_1_SJ` layer (src/SNN_models.py, class Dcls3_1_SJ) is a
  record holding the fields the claims are about (version string, the delay
  position parameter P, the spread parameter SIG together with its
  requires_grad flags, and sig_init);
* the time-axis adapter of `Dcls3_1_SJ.forward` (permute, causal pad, valid
  convolution, inverse permute) is embedded as a composition of four functions
  on time-indexed tensors;
* the training-script parameter partitioning (src/lip_reading.py, lines
  150-156) is embedded over lists of (qualified name, requires_grad) pairs,
  keeping the Python operator precedence (`and` binds tighter than `or`);
* `ResNet18.init_params` is embedded as a map over a list of module
  descriptors, keeping the isinstance dispatch of the source: only the
  spikingjelly `layer.Conv1d/2d/3d` and `layer.BatchNorm1d/2d/3d` classes are
  matched; `Dcls3_1_SJ` (a subclass of the external `Dcls3_1d`, which does not
  derive from the spikingjelly conv classes) and the plain
  `torch.nn.BatchNorm1d` used for `bn2` fall through untouched.
-/

/-! ## Delayed temporal kernel state (`Dcls3_1_SJ`, src/SNN_models.py lines 11-63)

The record keeps the per-layer state that `__init__`, `decrease_sig`,
`clamp_parameters` and the optimizer grouping read or write.  The SIG tensor
is modelled as a function from a flattened entry index to ℝ (the source tensor
has shape [out, in // groups, 1, 1, 1, kernel_count]); entry 0 stands for
`SIG[0, 0, 0, 0, 0, 0]`.  The position parameter is kept as a single
representative scalar, which is all the claims need.  `sigInit` models the
`sig_init` attribute; the source only creates it in the `version == "gauss"`
branch and only reads it under a `version == "gauss"` test, so the default 0
for other versions is never consulted. -/
structure DclsState where
  version : String
  learnDelay : Bool
  dks : ℕ
  pRequiresGrad : Bool
  sigRequiresGrad : Bool
  P : ℝ
  SIG : ℕ → ℝ
  sigInit : ℝ

/-- Constructor of `Dcls3_1_SJ` (src/SNN_models.py lines 12-47), after the
parent constructor: the parent creates P and SIG with `requires_grad = True`
and values `p0` / `sig0`; then `learn_delay = False` freezes P, and
`version == "gauss"` freezes SIG, sets `sig_init = dilated_kernel_size[0] / 2`
and fills SIG with that constant. -/
noncomputable def mkDcls (learnDelay : Bool) (dks : ℕ) (version : String)
    (p0 : ℝ) (sig0 : ℕ → ℝ) : DclsState :=
  let s0 : DclsState :=
    { version := version, learnDelay := learnDelay, dks := dks,
      pRequiresGrad := true, sigRequiresGrad := true,
      P := p0, SIG := sig0, sigInit := 0 }
  let s1 := if learnDelay then s0 else { s0 with pRequiresGrad := false }
  if version = "gauss" then
    { s1 with sigRequiresGrad := false,
              sigInit := (dks : ℝ) / 2,
              SIG := fun _ => (dks : ℝ) / 2 }
  else s1

/-- `Dcls3_1_SJ.decrease_sig` (src/SNN_models.py lines 49-56):
`final_epoch = (1 * epochs) // 4`, `final_sig = 0.23`, read
`sig = SIG[0,0,0,0,0,0]`; if the version is "gauss" and
`epoch < epochs and sig > final_sig`, multiply the whole SIG tensor by
`alpha = (final_sig / sig_init) ** (1 / final_epoch)`.  (For `epochs < 4` the
source would divide by zero; no claim exercises that corner.) -/
noncomputable def decreaseSig (s : DclsState) (epoch epochs : ℕ) : DclsState :=
  let finalEpoch : ℕ := (1 * epochs) / 4
  let finalSig : ℝ := 0.23
  let sig : ℝ := s.SIG 0
  if s.version = "gauss" then
    if epoch < epochs ∧ finalSig < sig then
      { s with SIG := fun i =>
          s.SIG i * ((finalSig / s.sigInit) ^ ((1 : ℝ) / (finalEpoch : ℝ))) }
    else s
  else s

/-- Modelled from the spec: `clamp_parameters` belongs to the external DCLS
class `Dcls3_1d`, whose source is not part of this repository.  Per spec
section 4.1 it restricts the position values to the valid offset range
supported by the dilated kernel size and touches nothing else — in particular
it does not modify SIG or the requires_grad flags. -/
noncomputable def clampParameters (s : DclsState) : DclsState :=
  { s with P := max (-(((s.dks : ℝ) - 1) / 2)) (min (((s.dks : ℝ) - 1) / 2) s.P) }

/-- The two per-epoch lifecycle operations a delay layer receives. -/
inductive DclsOp where
  | clamp : DclsOp
  | dec (epoch epochs : ℕ) : DclsOp

noncomputable def applyDclsOp (s : DclsState) : DclsOp → DclsState
  | .clamp => clampParameters s
  | .dec e es => decreaseSig s e es

noncomputable def applyDclsOps (ops : List DclsOp) (s : DclsState) : DclsState :=
  ops.foldl applyDclsOp s

/-- `new_conv3x3` (src/SNN_models.py lines 189-202): a `Dcls3_1_SJ` with
`learn_delay=True`, `dilated_kernel_size=(3,)`, `version="gauss"` (the dense
3x3 spatial geometry is not part of the delay state). -/
noncomputable def newConv3x3 (p0 : ℝ) (sig0 : ℕ → ℝ) : DclsState :=
  mkDcls true 3 "gauss" p0 sig0

/-- `new_conv1x1` (src/SNN_models.py lines 212-225): same delay configuration
as `new_conv3x3` (dense kernel 1x1 instead of 3x3). -/
noncomputable def newConv1x1 (p0 : ℝ) (sig0 : ℕ → ℝ) : DclsState :=
  mkDcls true 3 "gauss" p0 sig0

/-! ## Optimizer parameter partitioning (src/lip_reading.py lines 150-156) -/

/-- The Python `str.endswith(post)`: the characters of `post` are a suffix of
the characters of `s` (stated over the underlying character lists, which the
kernel can evaluate). -/
def strEndsWith (s post : String) : Bool := post.data.isSuffixOf s.data

/-- The membership test of the position group, with the Python operator
precedence: `name.endswith(".P") or name.endswith(".SIG") and
param.requires_grad` parses as `endswith ".P" ∨ (endswith ".SIG" ∧
requires_grad)`. -/
def positionGroupPred (name : String) (requiresGrad : Bool) : Bool :=
  strEndsWith name ".P" || (strEndsWith name ".SIG" && requiresGrad)

/-- The loop over `model.named_parameters()` that fills `position_params` and
`other_params` (src/lip_reading.py lines 150-156), over a list of
(qualified name, requires_grad) pairs. -/
def partitionParams (ps : List (String × Bool)) :
    List (String × Bool) × List (String × Bool) :=
  (ps.filter (fun p => positionGroupPred p.1 p.2),
   ps.filter (fun p => !positionGroupPred p.1 p.2))

/-! ## Time-axis adapter of `Dcls3_1_SJ.forward` (src/SNN_models.py lines 58-63)

Activations are (Time, Batch, Channel×Height×Width) tensors, embedded as
functions `ℕ → ℕ → ι → ℝ` (time, batch, flattened feature index).  The
underlying `Dcls3_1d.forward` is a batch-pointwise convolution whose
materialized kernel has extent `K = dilated_kernel_size[0]` along time,
stride 1 and padding 0 there (the layer passes `(stride, stride, 1)` and
`(*spatial_padding, 0)` to the parent); its action per time tap is an
arbitrary linear map `W k : feature → feature` covering the dense spatial
convolution, the channel mixing, and the Gaussian-interpolated delay
weights. -/

/-- `x.permute(1, 2, 3, 4, 0)`: [T, N, C, H, W] → [N, C, H, W, T]. -/
def permuteToTimeLast {α : Type} (x : ℕ → ℕ → α → ℝ) : ℕ → α → ℕ → ℝ :=
  fun n i t => x t n i

/-- `F.pad(x, (K - 1, 0))`: left-pad the last (time) axis with `K - 1`
zeros. -/
def padLast {α : Type} (K : ℕ) (y : ℕ → α → ℕ → ℝ) : ℕ → α → ℕ → ℝ :=
  fun n i s => if s < K - 1 then 0 else y n i (s - (K - 1))

/-- The valid (padding-0, stride-1) convolution along the time axis performed
by `Dcls3_1d.forward` with a materialized kernel of time extent `K`:
`out[n, j, τ] = Σ_k Σ_i W[k, j, i] · y[n, i, τ + k]`. -/
noncomputable def convTimeValid {ι κ : Type} [Fintype ι] (K : ℕ)
    (W : Fin K → κ → ι → ℝ) (y : ℕ → ι → ℕ → ℝ) : ℕ → κ → ℕ → ℝ :=
  fun n j t => ∑ k : Fin K, ∑ i : ι, W k j i * y n i (t + k)

/-- `x.permute(4, 0, 1, 2, 3)`: [N, C, H, W, T] → [T, N, C, H, W]. -/
def permuteToTimeFirst {α : Type} (z : ℕ → α → ℕ → ℝ) : ℕ → ℕ → α → ℝ :=
  fun t n j => z n j t

/-- `Dcls3_1_SJ.forward` (src/SNN_models.py lines 58-63): permute to
time-last, causally pad the time axis by `K - 1`, run the valid convolution,
permute back to time-first. -/
noncomputable def dclsSJForward {ι κ : Type} [Fintype ι] (K : ℕ)
    (W : Fin K → κ → ι → ℝ) (x : ℕ → ℕ → ι → ℝ) : ℕ → ℕ → κ → ℝ :=
  permuteToTimeFirst (convTimeValid K W (padLast K (permuteToTimeLast x)))

/-- Length of the time axis after `F.pad(x, (K - 1, 0))`. -/
def padOutLen (K T : ℕ) : ℕ := T + (K - 1)

/-- Output length of a valid stride-1 convolution with kernel extent `K` on an
axis of length `L`. -/
def convValidOutLen (K L : ℕ) : ℕ := L - K + 1

/-- Number of output time steps of `Dcls3_1_SJ.forward` for `T` input steps:
causal pad followed by the valid convolution. -/
def dclsOutTimeSteps (K T : ℕ) : ℕ := convValidOutLen K (padOutLen K T)

/-! ## Residual block (`BasicBlock`, src/SNN_models.py lines 228-307)

The forward wiring is embedded over opaque sub-layer functions on tensors
`ι → ℝ`; the concrete pointwise operations of the source (`self.relu`,
`.sigmoid()`, `*`, `+`) are embedded concretely. -/

/-- Pointwise `torch.nn.ReLU`. -/
noncomputable def reluT {ι : Type} (v : ι → ℝ) : ι → ℝ := fun i => max 0 (v i)

/-- Pointwise `Tensor.sigmoid`: `1 / (1 + exp (-x))`. -/
noncomputable def sigmoidT {ι : Type} (v : ι → ℝ) : ι → ℝ :=
  fun i => 1 / (1 + Real.exp (-(v i)))

/-- The squeeze-and-excitation sub-layers `gap, conv3, spiking3, conv4,
spiking4`, created by the constructor only when `se` is set. -/
structure GateFuns (ι : Type) where
  gap : (ι → ℝ) → (ι → ℝ)
  conv3 : (ι → ℝ) → (ι → ℝ)
  spiking3 : (ι → ℝ) → (ι → ℝ)
  conv4 : (ι → ℝ) → (ι → ℝ)
  spiking4 : (ι → ℝ) → (ι → ℝ)

/-- The sub-layer functions of a `BasicBlock`.  `gate` is `some` exactly when
the constructor ran its `if self.se:` branch. -/
structure BlockFuns (ι : Type) where
  conv1 : (ι → ℝ) → (ι → ℝ)
  bn1 : (ι → ℝ) → (ι → ℝ)
  spiking1 : (ι → ℝ) → (ι → ℝ)
  conv2 : (ι → ℝ) → (ι → ℝ)
  bn2 : (ι → ℝ) → (ι → ℝ)
  spiking2 : (ι → ℝ) → (ι → ℝ)
  downsample : Option ((ι → ℝ) → (ι → ℝ))
  se : Bool
  gate : Option (GateFuns ι)

/-- `BasicBlock.__init__` at the level of sub-layer functions: the gate
sub-layers exist exactly when `se` is set. -/
def mkBlockFuns {ι : Type} (se : Bool)
    (conv1 bn1 spiking1 conv2 bn2 spiking2 : (ι → ℝ) → (ι → ℝ))
    (downsample : Option ((ι → ℝ) → (ι → ℝ)))
    (gap conv3 spiking3 conv4 spiking4 : (ι → ℝ) → (ι → ℝ)) : BlockFuns ι :=
  { conv1 := conv1, bn1 := bn1, spiking1 := spiking1,
    conv2 := conv2, bn2 := bn2, spiking2 := spiking2,
    downsample := downsample, se := se,
    gate := if se then
        some ⟨gap, conv3, spiking3, conv4, spiking4⟩
      else none }

/-- `BasicBlock.forward` (src/SNN_models.py lines 267-291):
`out = spiking2 (bn2 (conv2 (spiking1 (bn1 (conv1 x)))))`; the residual is
`downsample x` when a downsample is supplied, else `x`; when `se` is set,
`w = spiking4 ((conv4 (relu (spiking3 (conv3 (gap out))))).sigmoid())` and
`out = out * w`; finally `out = out + residual`.  Returns `none` when the
`se` branch would access absent gate sub-layers (an `AttributeError` in the
source, unreachable through the constructor). -/
noncomputable def basicBlockForward {ι : Type} (B : BlockFuns ι) (x : ι → ℝ) :
    Option (ι → ℝ) :=
  let out := B.spiking2 (B.bn2 (B.conv2 (B.spiking1 (B.bn1 (B.conv1 x)))))
  let residual := match B.downsample with
    | some d => d x
    | none => x
  if B.se then
    match B.gate with
    | none => none
    | some g =>
      let w := g.spiking4 (sigmoidT (g.conv4 (reluT (g.spiking3 (g.conv3 (g.gap out))))))
      some (fun i => out i * w i + residual i)
  else
    some (fun i => out i + residual i)

/-! ## Stateful residual block and its lifecycle hooks -/

/-- An inner convolution of a `BasicBlock`: an ordinary `layer.Conv2d`
(represented by its weight stand-in) when the block is not delayed, or a
`Dcls3_1_SJ` delay layer. -/
inductive ConvMod where
  | plain (w : ℝ) : ConvMod
  | dcls (s : DclsState) : ConvMod

/-- Calling `decrease_sig` on an inner convolution: ordinary `layer.Conv2d`
has no such method (`AttributeError`, modelled as `none`). -/
noncomputable def ConvMod.decSigM : ConvMod → ℕ → ℕ → Option ConvMod
  | .plain _, _, _ => none
  | .dcls s, e, es => some (.dcls (decreaseSig s e es))

/-- Calling `clamp_parameters` on an inner convolution: ordinary
`layer.Conv2d` has no such method (`AttributeError`, modelled as `none`). -/
noncomputable def ConvMod.clampM : ConvMod → Option ConvMod
  | .plain _ => none
  | .dcls s => some (.dcls (clampParameters s))

/-- The parameter state of a `BasicBlock` relevant to the lifecycle hooks:
the `delayed` and `se` flags and the inner convolutions.  `conv3`/`conv4`
exist only when `se` is set (constructor lines 260-265). -/
structure BBlock where
  delayed : Bool
  se : Bool
  conv1 : ConvMod
  conv2 : ConvMod
  conv3 : Option ConvMod
  conv4 : Option ConvMod

/-- `BasicBlock.__init__` (src/SNN_models.py lines 231-265) at the delay-state
level: `final_conv3x3 = new_conv3x3 if delayed else conv3x3` (and likewise for
the 1x1 convolutions of the `se` path); `w` are the plain-conv weight
stand-ins and `p`, `sg` the parent-constructor initial values of the delay
layers. -/
noncomputable def mkBBlock (delayed se : Bool) (w p : Fin 4 → ℝ)
    (sg : Fin 4 → ℕ → ℝ) : BBlock :=
  { delayed := delayed, se := se,
    conv1 := if delayed then .dcls (newConv3x3 (p 0) (sg 0)) else .plain (w 0),
    conv2 := if delayed then .dcls (newConv3x3 (p 1) (sg 1)) else .plain (w 1),
    conv3 := if se then
        some (if delayed then .dcls (newConv1x1 (p 2) (sg 2)) else .plain (w 2))
      else none,
    conv4 := if se then
        some (if delayed then .dcls (newConv1x1 (p 3) (sg 3)) else .plain (w 3))
      else none }

/-- `BasicBlock.decrease_sig` (src/SNN_models.py lines 301-307): forwards to
`conv1`, `conv2` and, when `se`, `conv3`, `conv4` — but only when `delayed`;
otherwise it does nothing. -/
noncomputable def BBlock.decSigM (b : BBlock) (e es : ℕ) : Option BBlock :=
  if b.delayed then do
    let c1 ← b.conv1.decSigM e es
    let c2 ← b.conv2.decSigM e es
    if b.se then do
      let c3m ← b.conv3
      let c3 ← c3m.decSigM e es
      let c4m ← b.conv4
      let c4 ← c4m.decSigM e es
      pure { b with conv1 := c1, conv2 := c2, conv3 := some c3, conv4 := some c4 }
    else
      pure { b with conv1 := c1, conv2 := c2 }
  else
    pure b

/-- `BasicBlock.clamp_parameters` (src/SNN_models.py lines 293-299): same
forwarding discipline as `decrease_sig`. -/
noncomputable def BBlock.clampM (b : BBlock) : Option BBlock :=
  if b.delayed then do
    let c1 ← b.conv1.clampM
    let c2 ← b.conv2.clampM
    if b.se then do
      let c3m ← b.conv3
      let c3 ← c3m.clampM
      let c4m ← b.conv4
      let c4 ← c4m.clampM
      pure { b with conv1 := c1, conv2 := c2, conv3 := some c3, conv4 := some c4 }
    else
      pure { b with conv1 := c1, conv2 := c2 }
  else
    pure b

/-- A lifecycle call on a block. -/
inductive BOp where
  | clamp : BOp
  | dec (epoch epochs : ℕ) : BOp

noncomputable def applyBOp (b : BBlock) : BOp → Option BBlock
  | .clamp => b.clampM
  | .dec e es => b.decSigM e es

/-- Any finite sequence of `clamp_parameters` / `decrease_sig` calls on a
block; `none` as soon as one call raises. -/
noncomputable def applyBlockOps : List BOp → BBlock → Option BBlock
  | [], b => some b
  | op :: rest, b => (applyBOp b op).bind (fun b2 => applyBlockOps rest b2)

/-- The non-convolution sub-layer functions of a block (batch norms, spiking
neurons, pooling, downsample), needed to run the block forward on a given
parameter state. -/
structure SubComps (ι : Type) where
  bn1 : (ι → ℝ) → (ι → ℝ)
  spiking1 : (ι → ℝ) → (ι → ℝ)
  bn2 : (ι → ℝ) → (ι → ℝ)
  spiking2 : (ι → ℝ) → (ι → ℝ)
  gap : (ι → ℝ) → (ι → ℝ)
  spiking3 : (ι → ℝ) → (ι → ℝ)
  spiking4 : (ι → ℝ) → (ι → ℝ)
  downsample : Option ((ι → ℝ) → (ι → ℝ))

/-- The sub-layer functions of a block with parameter state `b`, given an
interpretation `interp` of the parameters of each convolution as a tensor
function. -/
noncomputable def BBlock.toFuns {ι : Type} (b : BBlock)
    (interp : ConvMod → (ι → ℝ) → (ι → ℝ)) (C : SubComps ι) : BlockFuns ι :=
  { conv1 := interp b.conv1, bn1 := C.bn1, spiking1 := C.spiking1,
    conv2 := interp b.conv2, bn2 := C.bn2, spiking2 := C.spiking2,
    downsample := C.downsample, se := b.se,
    gate := match b.conv3, b.conv4 with
      | some c3, some c4 =>
          some ⟨C.gap, interp c3, C.spiking3, interp c4, C.spiking4⟩
      | _, _ => none }

/-! ## `ResNet18.init_params` (src/SNN_models.py lines 465-500)

`init_params` iterates `self.modules()` and dispatches on `isinstance`
against the spikingjelly classes `layer.Conv3d/Conv2d/Conv1d` and
`layer.BatchNorm3d/BatchNorm2d/BatchNorm1d`.  The class of a module is abstracted
to a kind tag.  `Dcls3_1_SJ` extends the external `Dcls3_1d`, which does not
derive from any spikingjelly class, so it matches no branch; the `bn2` of the
backbone is a plain `torch.nn.BatchNorm1d` (line 384), which is a *super*class
of `layer.BatchNorm1d` and therefore also matches no branch. -/

/-- The value state of a weight or bias tensor: either a held value or a
sample of a zero-mean normal with the recorded variance. -/
inductive WVal where
  | val (q : ℚ) : WVal
  | normalVar (variance : ℚ) : WVal
deriving DecidableEq

/-- The class kind of a module, as seen by the `isinstance` dispatch. -/
inductive MKind where
  | sjConv3d : MKind
  | sjConv2d : MKind
  | sjConv1d : MKind
  | sjBN3d : MKind
  | sjBN2d : MKind
  | sjBN1d : MKind
  | dclsConv : MKind
  | torchBN1d : MKind
  | other : MKind
deriving DecidableEq

/-- A module descriptor: kind, kernel sizes (unused ones 1), out_channels,
and the weight / optional bias states. -/
structure PMod where
  kind : MKind
  k0 : ℕ
  k1 : ℕ
  k2 : ℕ
  outChannels : ℕ
  weight : WVal
  bias : Option WVal
deriving DecidableEq

/-- The body of the `init_params` loop for one module `m` (src/SNN_models.py
lines 466-500): spikingjelly convolutions get `normal_(0, sqrt(2 / n))`
weights with `n = prod(kernel_size) * out_channels` and zeroed biases;
spikingjelly batch norms get weight 1 and bias 0; anything else — including
`Dcls3_1_SJ` and the plain `torch.nn.BatchNorm1d` — is left untouched. -/
def initModule (m : PMod) : PMod :=
  match m.kind with
  | .sjConv3d =>
      { m with weight := .normalVar (2 / (m.k0 * m.k1 * m.k2 * m.outChannels : ℚ)),
               bias := m.bias.map (fun _ => .val 0) }
  | .sjConv2d =>
      { m with weight := .normalVar (2 / (m.k0 * m.k1 * m.outChannels : ℚ)),
               bias := m.bias.map (fun _ => .val 0) }
  | .sjConv1d =>
      { m with weight := .normalVar (2 / (m.k0 * m.outChannels : ℚ)),
               bias := m.bias.map (fun _ => .val 0) }
  | .sjBN3d => { m with weight := .val 1, bias := m.bias.map (fun _ => .val 0) }
  | .sjBN2d => { m with weight := .val 1, bias := m.bias.map (fun _ => .val 0) }
  | .sjBN1d => { m with weight := .val 1, bias := m.bias.map (fun _ => .val 0) }
  | _ => m

/-- `ResNet18.init_params`: the loop body applied to every module of the
model. -/
def initParams (model : List PMod) : List PMod := model.map initModule

/-- Modules the claim calls convolution modules (explicitly including the
delay-based `Dcls3_1_SJ` ones). -/
def isConvModule (m : PMod) : Bool :=
  match m.kind with
  | .sjConv3d => true
  | .sjConv2d => true
  | .sjConv1d => true
  | .dclsConv => true
  | _ => false

/-- Modules the claim calls normalization modules (explicitly including the
plain-torch 1-D batch norm `bn2`). -/
def isNormModule (m : PMod) : Bool :=
  match m.kind with
  | .sjBN3d => true
  | .sjBN2d => true
  | .sjBN1d => true
  | .torchBN1d => true
  | _ => false

/-- Written from the words of claim C5, for comparison with the behaviour of
`initParams`: after `init_params`, every convolution module has a
normal-sampled weight of variance `2 / (kernel volume × out_channels)` and a
zeroed bias, and every normalization module has scale 1 and shift 0. -/
def c5SpecInitProp (model : List PMod) : Prop :=
  ∀ m ∈ initParams model,
    (isConvModule m = true →
      m.weight = WVal.normalVar (2 / (m.k0 * m.k1 * m.k2 * m.outChannels : ℚ)) ∧
      (m.bias = none ∨ m.bias = some (WVal.val 0))) ∧
    (isNormModule m = true →
      m.weight = WVal.val 1 ∧ (m.bias = none ∨ m.bias = some (WVal.val 0)))

/-- A `Dcls3_1_SJ` convolution as `init_params` finds it: dense 3x3 kernel,
dilated time extent 3, 64 output channels, weight still holding its
construction-time value. -/
def dclsEx : PMod :=
  { kind := .dclsConv, k0 := 3, k1 := 3, k2 := 3, outChannels := 64,
    weight := .val 7, bias := none }

/-- A spikingjelly `layer.Conv2d` as `init_params` finds it (3x3 kernel, 64
output channels, bias present). -/
def sjConv2dEx : PMod :=
  { kind := .sjConv2d, k0 := 3, k1 := 3, k2 := 1, outChannels := 64,
    weight := .val 4, bias := some (.val 9) }

/-! ## Backbone stage registry (`ResNet18`, src/SNN_models.py lines 310-463)

Blocks are identified by (stage index, block index); `_make_layer` builds the
block list of one stage and appends it to the master registry `self.layers`
(line 448), and `clamp_parameters` / `decrease_sig` broadcast by iterating
that registry (lines 455-463). -/

/-- Identifier of a residual block: (stage index, block index). -/
abbrev BlockId := ℕ × ℕ

/-- Count block identifiers with the equality-derived `BEq`, so that the
`List.count` lemmas of the library apply. -/
@[reducible] instance : BEq BlockId := instBEqOfDecidableEq

instance : LawfulBEq BlockId where
  eq_of_beq := of_decide_eq_true
  rfl := of_decide_eq_self_eq_true _

/-- The `layers` list built inside `_make_layer`: one first block plus
`blocks - 1` further blocks, i.e. `nblocks` blocks of the given stage. -/
def mkLayerBlocks (stage nblocks : ℕ) : List BlockId :=
  (List.range nblocks).map (fun j => (stage, j))

/-- `ResNet18._make_layer` (src/SNN_models.py lines 393-450) at the registry
level: build the block list of the stage, append it to `self.layers`, and return
it (as the `nn.Sequential` assigned to `self.layerN`). -/
def makeLayer (stage nblocks : ℕ) (registry : List (List BlockId)) :
    List BlockId × List (List BlockId) :=
  let layers := mkLayerBlocks stage nblocks
  (layers, registry ++ [layers])

/-- The stage structure of a constructed `ResNet18`. -/
structure RNet where
  layer1 : List BlockId
  layer2 : List BlockId
  layer3 : List BlockId
  layer4 : List BlockId
  layers : List (List BlockId)

/-- `ResNet18.__init__` (src/SNN_models.py lines 311-391): `self.layers = []`,
then four `_make_layer` calls with block counts `cfg 0 .. cfg 3` (all with
`delayed=True`). -/
def mkResNet (cfg : ℕ → ℕ) : RNet :=
  let m1 := makeLayer 0 (cfg 0) []
  let m2 := makeLayer 1 (cfg 1) m1.2
  let m3 := makeLayer 2 (cfg 2) m2.2
  let m4 := makeLayer 3 (cfg 3) m3.2
  { layer1 := m1.1, layer2 := m2.1, layer3 := m3.1, layer4 := m4.1,
    layers := m4.2 }

/-- The blocks visited, in order, by `ResNet18.clamp_parameters` and
`ResNet18.decrease_sig` (src/SNN_models.py lines 455-463): every block of
every list in `self.layers`. -/
def broadcastTargets (net : RNet) : List BlockId := net.layers.flatten

/-! ## The gauss annealing schedule of claim C2 -/

/-- The per-epoch factor `(0.23 / 1.5) ** (1 / 25)` applied by `decrease_sig`
for `sig_init = 1.5` (dilated kernel size 3) and `epochs = 100`. -/
noncomputable def gaussAlpha : ℝ := ((0.23 : ℝ) / (3 / 2)) ^ ((1 : ℝ) / 25)

/-- The kernel of claim C2: `version="gauss"`, `dilated_kernel_size=(3,)`, so
spread initialized to 1.5. -/
noncomputable def gaussKernel3 (p0 : ℝ) (sig0 : ℕ → ℝ) : DclsState :=
  mkDcls true 3 "gauss" p0 sig0

/-- The layer state after calling `decrease_sig(epoch, 100)` once for each
epoch `0 .. n-1`, starting from a freshly constructed gauss kernel. -/
noncomputable def sigTraj (p0 : ℝ) (sig0 : ℕ → ℝ) : ℕ → DclsState
  | 0 => gaussKernel3 p0 sig0
  | n + 1 => decreaseSig (sigTraj p0 sig0 n) n 100

/-! ## Theorems -/

/-- C3: the output of `Dcls3_1_SJ.forward` at time step `t` is unchanged by
any perturbation of the input restricted to time steps strictly after `t`:
two inputs that agree at all steps `s ≤ t` produce the same output at `t`,
for every kernel, because the time axis is left-padded by
`dilated_kernel_size - 1` before the valid convolution. -/
theorem causal_c3 {ι κ : Type} [Fintype ι] (K : ℕ) (W : Fin K → κ → ι → ℝ)
    (x x' : ℕ → ℕ → ι → ℝ) (t : ℕ)
    (h : ∀ s, s ≤ t → ∀ n i, x s n i = x' s n i) :
    ∀ n j, dclsSJForward K W x t n j = dclsSJForward K W x' t n j := by
  intro n j
  unfold dclsSJForward permuteToTimeFirst convTimeValid padLast permuteToTimeLast
  refine Finset.sum_congr rfl fun k _ => Finset.sum_congr rfl fun i _ => ?_
  by_cases hk : t + (k : ℕ) < K - 1
  · simp [hk]
  · have hkK : (k : ℕ) < K := k.isLt
    have hle : t + (k : ℕ) - (K - 1) ≤ t := by omega
    simp only [if_neg hk]
    rw [h _ hle n i]

theorem causal_c3_witness :
    dclsSJForward 3 (fun _ _ _ => (1 : ℝ) : Fin 3 → Fin 1 → Fin 1 → ℝ)
        (fun s _ _ => (s : ℝ)) 1 0 0
      = dclsSJForward 3 (fun _ _ _ => (1 : ℝ) : Fin 3 → Fin 1 → Fin 1 → ℝ)
        (fun s _ _ => if s ≤ 1 then (s : ℝ) else 99) 1 0 0 :=
  causal_c3 3 (fun _ _ _ => (1 : ℝ)) (fun s _ _ => (s : ℝ))
    (fun s _ _ => if s ≤ 1 then (s : ℝ) else 99) 1
    (fun s hs _ _ => by simp [hs]) 0 0

/-- C6: the delay-integrated layer is a pure adapter: (a) the transpose into
(Batch, C, H, W, Time) layout is exactly undone by the inverse transpose (the
two permutes are mutual inverses); (b) the number of output time steps equals
the number of input time steps (causal pad by `K - 1` followed by the valid
convolution); (c) the forward is batch-pointwise: the output at a batch index
depends only on the input at that batch index, so Batch/Channel semantics of
the caller are not permuted. -/
theorem adapter_c6 {ι κ : Type} [Fintype ι] :
    (∀ x : ℕ → ℕ → ι → ℝ, permuteToTimeFirst (permuteToTimeLast x) = x) ∧
    (∀ z : ℕ → κ → ℕ → ℝ, permuteToTimeLast (permuteToTimeFirst z) = z) ∧
    (∀ K T : ℕ, 1 ≤ K → 1 ≤ T → dclsOutTimeSteps K T = T) ∧
    (∀ (K : ℕ) (W : Fin K → κ → ι → ℝ) (x x' : ℕ → ℕ → ι → ℝ) (n : ℕ),
      (∀ s i, x s n i = x' s n i) →
      ∀ t j, dclsSJForward K W x t n j = dclsSJForward K W x' t n j) := by
  refine ⟨fun x => rfl, fun z => rfl, ?_, ?_⟩
  · intro K T hK hT
    unfold dclsOutTimeSteps convValidOutLen padOutLen
    omega
  · intro K W x x' n h t j
    unfold dclsSJForward permuteToTimeFirst convTimeValid padLast permuteToTimeLast
    refine Finset.sum_congr rfl fun k _ => Finset.sum_congr rfl fun i _ => ?_
    by_cases hk : t + (k : ℕ) < K - 1
    · simp [hk]
    · simp only [if_neg hk]
      rw [h _ i]

theorem adapter_c6_witness : dclsOutTimeSteps 3 30 = 30 :=
  (@adapter_c6 (Fin 1) (Fin 1) _).2.2.1 3 30 (by norm_num) (by norm_num)

theorem mkLayerBlocks_nodup (s n : ℕ) : (mkLayerBlocks s n).Nodup := by
  unfold mkLayerBlocks
  exact (List.nodup_range n).map (fun a b hab => by simpa using hab)

theorem mem_mkLayerBlocks (s n s2 j : ℕ) :
    (s2, j) ∈ mkLayerBlocks s n ↔ s2 = s ∧ j < n := by
  unfold mkLayerBlocks
  constructor
  · intro hmem
    rcases List.mem_map.mp hmem with ⟨a, ha, heq⟩
    have h1 : s = s2 ∧ a = j := by
      constructor
      · exact congrArg Prod.fst heq
      · exact congrArg Prod.snd heq
    exact ⟨h1.1.symm, h1.2 ▸ List.mem_range.mp ha⟩
  · intro ⟨hs, hj⟩
    exact List.mem_map.mpr ⟨j, List.mem_range.mpr hj, by rw [hs]⟩

theorem count_mkLayerBlocks (s n s2 j : ℕ) :
    (mkLayerBlocks s n).count (s2, j)
      = if s2 = s ∧ j < n then 1 else 0 := by
  by_cases hc : s2 = s ∧ j < n
  · rw [if_pos hc]
    exact List.count_eq_one_of_mem (mkLayerBlocks_nodup s n)
      ((mem_mkLayerBlocks s n s2 j).mpr hc)
  · rw [if_neg hc]
    exact List.count_eq_zero.mpr (fun hmem => hc ((mem_mkLayerBlocks s n s2 j).mp hmem))

/-- C9: every residual block built by the four `_make_layer` calls of the
backbone constructor appears in the master stage registry `self.layers`, and
the broadcast loop of `clamp_parameters` / `decrease_sig` visits each such
block exactly once; moreover the registry holds exactly the four stage lists,
in order. -/
theorem registry_c9 (cfg : ℕ → ℕ) :
    (mkResNet cfg).layers
        = [(mkResNet cfg).layer1, (mkResNet cfg).layer2,
           (mkResNet cfg).layer3, (mkResNet cfg).layer4] ∧
    ∀ s j : ℕ, s < 4 → j < cfg s →
      (broadcastTargets (mkResNet cfg)).count (s, j) = 1 := by
  constructor
  · rfl
  · intro s j hs hj
    have hflat : broadcastTargets (mkResNet cfg)
        = mkLayerBlocks 0 (cfg 0) ++ (mkLayerBlocks 1 (cfg 1)
            ++ (mkLayerBlocks 2 (cfg 2) ++ (mkLayerBlocks 3 (cfg 3) ++ []))) := rfl
    rw [hflat]
    simp only [List.count_append, count_mkLayerBlocks, List.count_nil]
    interval_cases s <;> simp_all

theorem registry_c9_witness :
    (broadcastTargets (mkResNet (fun _ => 2))).count (3, 1) = 1 :=
  (registry_c9 (fun _ => 2)).2 3 1 (by norm_num) (by norm_num)

theorem decreaseSig_uniform (s : DclsState) (e es : ℕ)
    (h : ∀ a b : ℕ, s.SIG a = s.SIG b) :
    ∀ a b : ℕ, (decreaseSig s e es).SIG a = (decreaseSig s e es).SIG b := by
  intro a b
  unfold decreaseSig
  by_cases hv : s.version = "gauss"
  · rw [if_pos hv]
    by_cases hc : e < es ∧ (0.23 : ℝ) < s.SIG 0
    · rw [if_pos hc]
      simp only
      rw [h a b]
    · rw [if_neg hc]
      exact h a b
  · rw [if_neg hv]
    exact h a b

/-- C10: for a gauss-version `Dcls3_1_SJ`, all entries of the SIG tensor are
equal after construction (it is filled with the single constant
`dilated_kernel_size / 2`) and remain equal to each other after any sequence
of `decrease_sig` calls, since each effective call scales the whole tensor by
one scalar — which is what justifies `decrease_sig` reading only
`SIG[0,0,0,0,0,0]` as the current spread. -/
theorem sig_uniform_c10 (ld : Bool) (dks : ℕ) (p0 : ℝ) (sig0 : ℕ → ℝ)
    (calls : List (ℕ × ℕ)) (a b : ℕ) :
    (calls.foldl (fun s c => decreaseSig s c.1 c.2) (mkDcls ld dks "gauss" p0 sig0)).SIG a
      = (calls.foldl (fun s c => decreaseSig s c.1 c.2) (mkDcls ld dks "gauss" p0 sig0)).SIG b := by
  have hbase : ∀ a2 b2 : ℕ,
      (mkDcls ld dks "gauss" p0 sig0).SIG a2 = (mkDcls ld dks "gauss" p0 sig0).SIG b2 := by
    intro a2 b2
    unfold mkDcls
    simp
  have hind : ∀ (l : List (ℕ × ℕ)) (s : DclsState),
      (∀ a2 b2 : ℕ, s.SIG a2 = s.SIG b2) →
      ∀ a2 b2 : ℕ,
        (l.foldl (fun s c => decreaseSig s c.1 c.2) s).SIG a2
          = (l.foldl (fun s c => decreaseSig s c.1 c.2) s).SIG b2 := by
    intro l
    induction l with
    | nil => intro s hs; exact hs
    | cons c rest ih =>
      intro s hs
      exact ih (decreaseSig s c.1 c.2) (decreaseSig_uniform s c.1 c.2 hs)
  exact hind calls (mkDcls ld dks "gauss" p0 sig0) hbase a b

/-- C1: the source routes a frozen position parameter (name ending in ".P",
requires_grad = False) into the position group, because `and` binds tighter
than `or` in the guard, so `requires_grad` is consulted only for ".SIG"
names.  The claim (and the spec) require such a parameter to land in the
default group.  Evaluated at a three-parameter model: a frozen position
parameter, a frozen spread parameter and a learnable weight. -/
theorem position_partition_c1 :
    partitionParams
        [("conv1.P", false), ("conv1.SIG", false), ("conv1.weight", true)]
      = ([("conv1.P", false)], [("conv1.SIG", false), ("conv1.weight", true)]) := by
  decide

theorem applyDclsOp_flags (s : DclsState) (op : DclsOp) :
    (applyDclsOp s op).sigRequiresGrad = s.sigRequiresGrad ∧
    (applyDclsOp s op).pRequiresGrad = s.pRequiresGrad := by
  cases op with
  | clamp => exact ⟨rfl, rfl⟩
  | dec e es =>
    show (decreaseSig s e es).sigRequiresGrad = _ ∧ (decreaseSig s e es).pRequiresGrad = _
    unfold decreaseSig
    by_cases hv : s.version = "gauss"
    · rw [if_pos hv]
      by_cases hc : e < es ∧ (0.23 : ℝ) < s.SIG 0
      · rw [if_pos hc]
        exact ⟨rfl, rfl⟩
      · rw [if_neg hc]
        exact ⟨rfl, rfl⟩
    · rw [if_neg hv]
      exact ⟨rfl, rfl⟩

theorem applyDclsOps_flags (ops : List DclsOp) (s : DclsState) :
    (applyDclsOps ops s).sigRequiresGrad = s.sigRequiresGrad ∧
    (applyDclsOps ops s).pRequiresGrad = s.pRequiresGrad := by
  induction ops generalizing s with
  | nil => exact ⟨rfl, rfl⟩
  | cons op rest ih =>
    have h1 := applyDclsOp_flags s op
    have h2 := ih (applyDclsOp s op)
    simp only [applyDclsOps, List.foldl_cons] at h2 ⊢
    exact ⟨h2.1.trans h1.1, h2.2.trans h1.2⟩

/-- C8: a gauss-version `Dcls3_1_SJ` has `SIG.requires_grad = False` from
construction onward (invariant under any sequence of `decrease_sig` /
`clamp_parameters` calls), with SIG initialized to `dilated_kernel_size / 2`;
`clamp_parameters` never writes SIG (the spread is mutated only by the
`decrease_sig` annealing rule); and when `learn_delay = False` the position
parameter has `requires_grad = False` from construction, an assignment the
lifecycle operations never change. -/
theorem sig_frozen_c8 (ld : Bool) (dks : ℕ) (p0 : ℝ) (sig0 : ℕ → ℝ)
    (ops : List DclsOp) :
    (mkDcls ld dks "gauss" p0 sig0).sigRequiresGrad = false ∧
    (mkDcls ld dks "gauss" p0 sig0).sigInit = (dks : ℝ) / 2 ∧
    (∀ i, (mkDcls ld dks "gauss" p0 sig0).SIG i = (dks : ℝ) / 2) ∧
    (ld = false → (mkDcls ld dks "gauss" p0 sig0).pRequiresGrad = false) ∧
    (applyDclsOps ops (mkDcls ld dks "gauss" p0 sig0)).sigRequiresGrad = false ∧
    (applyDclsOps ops (mkDcls ld dks "gauss" p0 sig0)).pRequiresGrad
      = (mkDcls ld dks "gauss" p0 sig0).pRequiresGrad ∧
    (∀ s : DclsState, (clampParameters s).SIG = s.SIG) := by
  have hsig : (mkDcls ld dks "gauss" p0 sig0).sigRequiresGrad = false := by
    unfold mkDcls
    cases ld <;> simp
  refine ⟨hsig, ?_, ?_, ?_, ?_, ?_, fun s => rfl⟩
  · unfold mkDcls
    cases ld <;> simp
  · intro i
    unfold mkDcls
    cases ld <;> simp
  · intro hld
    subst hld
    unfold mkDcls
    simp
  · exact (applyDclsOps_flags ops _).1.trans hsig
  · exact (applyDclsOps_flags ops _).2

theorem sig_frozen_c8_witness :
    (mkDcls false 3 "gauss" 0 (fun _ => 0)).pRequiresGrad = false ∧
    (applyDclsOps [DclsOp.clamp, DclsOp.dec 0 100]
        (mkDcls false 3 "gauss" 0 (fun _ => 0))).sigRequiresGrad = false :=
  ⟨(sig_frozen_c8 false 3 0 (fun _ => 0) []).2.2.2.1 rfl,
   (sig_frozen_c8 false 3 0 (fun _ => 0)
      [DclsOp.clamp, DclsOp.dec 0 100]).2.2.2.2.1⟩

theorem applyBOp_nondelayed (b : BBlock) (hb : b.delayed = false) (op : BOp) :
    applyBOp b op = some b := by
  cases op with
  | clamp =>
    show b.clampM = some b
    unfold BBlock.clampM
    rw [hb]
    rfl
  | dec e es =>
    show b.decSigM e es = some b
    unfold BBlock.decSigM
    rw [hb]
    rfl

theorem applyBlockOps_nondelayed (ops : List BOp) (b : BBlock)
    (hb : b.delayed = false) : applyBlockOps ops b = some b := by
  induction ops with
  | nil => rfl
  | cons op rest ih =>
    unfold applyBlockOps
    rw [applyBOp_nondelayed b hb op]
    simpa using ih

/-- C7: a `BasicBlock` constructed with `delayed = False` is unaffected by any
sequence of `decrease_sig` / `clamp_parameters` calls with any arguments: no
call raises (the guard `if self.delayed` short-circuits before the plain
convolutions, which lack these methods, are touched), the parameter state is
unchanged, and the forward output of the block on any fixed input — for any
interpretation of the sub-layer functions — is bit-identical. -/
theorem nondelayed_c7 {ι : Type} (se : Bool) (w p : Fin 4 → ℝ)
    (sg : Fin 4 → ℕ → ℝ) (ops : List BOp)
    (interp : ConvMod → (ι → ℝ) → (ι → ℝ)) (C : SubComps ι) (x : ι → ℝ) :
    applyBlockOps ops (mkBBlock false se w p sg) = some (mkBBlock false se w p sg) ∧
    (applyBlockOps ops (mkBBlock false se w p sg)).map
        (fun b2 => basicBlockForward (b2.toFuns interp C) x)
      = some (basicBlockForward ((mkBBlock false se w p sg).toFuns interp C) x) := by
  have h1 : applyBlockOps ops (mkBBlock false se w p sg)
      = some (mkBBlock false se w p sg) :=
    applyBlockOps_nondelayed ops _ rfl
  exact ⟨h1, by rw [h1]; rfl⟩

/-- C5 counterexample: `init_params` leaves a `Dcls3_1_SJ` convolution module
entirely untouched (its `isinstance` dispatch matches only the spikingjelly
classes), so the delay convolution keeps its construction-time weight value
instead of receiving the claimed normal-distributed initialization: the claim
is false on this one-module model. -/
theorem init_params_c5_counterexample : ¬ c5SpecInitProp [dclsEx] := by
  unfold c5SpecInitProp
  decide

/-- C5 (amended): `init_params` draws normal weights of variance
`2 / (kernel volume × out_channels)` and zeroes biases exactly for the
spikingjelly `Conv3d`/`Conv2d`/`Conv1d` modules, sets scale 1 / shift 0
exactly for the spikingjelly `BatchNorm3d/2d/1d` modules, and leaves every
other module — in particular the `Dcls3_1_SJ` delay convolutions and the
plain `torch.nn.BatchNorm1d` used as `bn2` — unchanged. -/
theorem init_params_c5_amended (m : PMod) :
    (m.kind = MKind.sjConv3d →
      (initModule m).weight
          = WVal.normalVar (2 / (m.k0 * m.k1 * m.k2 * m.outChannels : ℚ)) ∧
      (initModule m).bias = m.bias.map (fun _ => WVal.val 0)) ∧
    (m.kind = MKind.sjConv2d →
      (initModule m).weight
          = WVal.normalVar (2 / (m.k0 * m.k1 * m.outChannels : ℚ)) ∧
      (initModule m).bias = m.bias.map (fun _ => WVal.val 0)) ∧
    (m.kind = MKind.sjConv1d →
      (initModule m).weight = WVal.normalVar (2 / (m.k0 * m.outChannels : ℚ)) ∧
      (initModule m).bias = m.bias.map (fun _ => WVal.val 0)) ∧
    ((m.kind = MKind.sjBN3d ∨ m.kind = MKind.sjBN2d ∨ m.kind = MKind.sjBN1d) →
      (initModule m).weight = WVal.val 1 ∧
      (initModule m).bias = m.bias.map (fun _ => WVal.val 0)) ∧
    ((m.kind = MKind.dclsConv ∨ m.kind = MKind.torchBN1d ∨ m.kind = MKind.other) →
      initModule m = m) ∧
    (∀ model : List PMod, initParams model = model.map initModule) := by
  refine ⟨?_, ?_, ?_, ?_, ?_, fun model => rfl⟩
  · intro hk
    exact ⟨by simp [initModule, hk], by simp [initModule, hk]⟩
  · intro hk
    exact ⟨by simp [initModule, hk], by simp [initModule, hk]⟩
  · intro hk
    exact ⟨by simp [initModule, hk], by simp [initModule, hk]⟩
  · intro hk
    rcases hk with hk | hk | hk <;>
      exact ⟨by simp [initModule, hk], by simp [initModule, hk]⟩
  · intro hk
    rcases hk with hk | hk | hk <;> simp [initModule, hk]

theorem init_params_c5_amended_witness :
    (initModule sjConv2dEx).weight
        = WVal.normalVar (2 / (sjConv2dEx.k0 * sjConv2dEx.k1 * sjConv2dEx.outChannels : ℚ)) ∧
    initModule dclsEx = dclsEx :=
  ⟨((init_params_c5_amended sjConv2dEx).2.1 rfl).1,
   (init_params_c5_amended dclsEx).2.2.2.2.1 (Or.inl rfl)⟩

theorem gaussAlpha_pos : 0 < gaussAlpha :=
  Real.rpow_pos_of_pos (by norm_num) _

theorem gaussAlpha_lt_one : gaussAlpha < 1 :=
  Real.rpow_lt_one (by norm_num) (by norm_num) (by norm_num)

theorem gaussAlpha_pow : gaussAlpha ^ (25 : ℕ) = (0.23 : ℝ) / (3 / 2) := by
  have hx : (0 : ℝ) ≤ (0.23 : ℝ) / (3 / 2) := by norm_num
  rw [gaussAlpha,
      ← Real.rpow_natCast (((0.23 : ℝ) / (3 / 2)) ^ ((1 : ℝ) / 25)) 25,
      ← Real.rpow_mul hx]
  have h1 : (1 : ℝ) / 25 * ((25 : ℕ) : ℝ) = 1 := by norm_num
  rw [h1, Real.rpow_one]

theorem decreaseSig_gauss_active (s : DclsState) (e es : ℕ)
    (hv : s.version = "gauss") (hc : e < es ∧ (0.23 : ℝ) < s.SIG 0) :
    decreaseSig s e es = { s with SIG := (fun i =>
      s.SIG i * (((0.23 : ℝ) / s.sigInit)
        ^ ((1 : ℝ) / (((1 * es) / 4 : ℕ) : ℝ)))) } := by
  simp only [decreaseSig]
  rw [if_pos hv, if_pos hc]

theorem decreaseSig_gauss_idle (s : DclsState) (e es : ℕ)
    (hc : ¬ (e < es ∧ (0.23 : ℝ) < s.SIG 0)) :
    decreaseSig s e es = s := by
  simp only [decreaseSig]
  by_cases hv : s.version = "gauss"
  · rw [if_pos hv, if_neg hc]
  · rw [if_neg hv]

theorem decreaseSig_factor :
    ((0.23 : ℝ) / (3 / 2)) ^ ((1 : ℝ) / (((1 * 100) / 4 : ℕ) : ℝ))
      = gaussAlpha := by
  norm_num [gaussAlpha]

theorem gaussKernel3_fields (p0 : ℝ) (sig0 : ℕ → ℝ) :
    (gaussKernel3 p0 sig0).version = "gauss" ∧
    (gaussKernel3 p0 sig0).sigInit = 3 / 2 ∧
    (gaussKernel3 p0 sig0).SIG = fun _ => (3 : ℝ) / 2 := by
  unfold gaussKernel3 mkDcls
  norm_num

theorem sigTraj_spec (p0 : ℝ) (sig0 : ℕ → ℝ) (n : ℕ) :
    (sigTraj p0 sig0 n).version = "gauss" ∧
    (sigTraj p0 sig0 n).sigInit = 3 / 2 ∧
    (sigTraj p0 sig0 n).SIG = fun _ => 3 / 2 * gaussAlpha ^ (min n 25) := by
  induction n with
  | zero =>
    obtain ⟨hv, hsi, hS⟩ := gaussKernel3_fields p0 sig0
    refine ⟨hv, hsi, ?_⟩
    rw [show sigTraj p0 sig0 0 = gaussKernel3 p0 sig0 from rfl, hS]
    simp
  | succ n ih =>
    obtain ⟨hv, hsi, hS⟩ := ih
    have hstep : sigTraj p0 sig0 (n + 1)
        = decreaseSig (sigTraj p0 sig0 n) n 100 := rfl
    by_cases hn : n < 25
    · have hmin : min n 25 = n := by omega
      have hpos : (0.23 : ℝ) < (sigTraj p0 sig0 n).SIG 0 := by
        rw [hS]
        simp only [hmin]
        have h1 : gaussAlpha ^ (25 : ℕ) < gaussAlpha ^ n :=
          pow_lt_pow_right_of_lt_one₀ gaussAlpha_pos gaussAlpha_lt_one hn
        have h2 : (3 : ℝ) / 2 * gaussAlpha ^ (25 : ℕ)
            < 3 / 2 * gaussAlpha ^ n := by
          exact mul_lt_mul_of_pos_left h1 (by norm_num)
        rw [gaussAlpha_pow] at h2
        calc (0.23 : ℝ) = 3 / 2 * ((0.23 : ℝ) / (3 / 2)) := by norm_num
        _ < 3 / 2 * gaussAlpha ^ n := h2
      rw [hstep, decreaseSig_gauss_active _ n 100 hv ⟨by omega, hpos⟩]
      refine ⟨hv, hsi, ?_⟩
      simp only [hS, hsi, decreaseSig_factor]
      funext i
      simp only [hmin, show min (n + 1) 25 = n + 1 by omega, pow_succ]
      ring
    · have hmin : min n 25 = 25 := by omega
      have heq : (sigTraj p0 sig0 n).SIG 0 = 0.23 := by
        rw [hS]
        simp only [hmin, gaussAlpha_pow]
        norm_num
      rw [hstep,
          decreaseSig_gauss_idle _ n 100 (fun hc => lt_irrefl _ (heq ▸ hc.2))]
      refine ⟨hv, hsi, ?_⟩
      rw [hS]
      simp only [hmin, show min (n + 1) 25 = 25 by omega]

theorem sigTraj_freeze (p0 : ℝ) (sig0 : ℕ → ℝ) (n : ℕ) (hn : 25 ≤ n) :
    sigTraj p0 sig0 n = sigTraj p0 sig0 25 := by
  induction n with
  | zero => omega
  | succ m ih =>
    rcases Nat.lt_or_ge m 25 with h | h
    · rw [show m + 1 = 25 by omega]
    · obtain ⟨hv, hsi, hS⟩ := sigTraj_spec p0 sig0 m
      have heq : (sigTraj p0 sig0 m).SIG 0 = 0.23 := by
        rw [hS]
        simp only [show min m 25 = 25 by omega, gaussAlpha_pow]
        norm_num
      rw [show sigTraj p0 sig0 (m + 1)
            = decreaseSig (sigTraj p0 sig0 m) m 100 from rfl,
          decreaseSig_gauss_idle _ m 100 (fun hc => lt_irrefl _ (heq ▸ hc.2))]
      exact ih h

/-- C2: on a gauss kernel with dilated kernel size 3 (spread initialized to
1.5), calling `decrease_sig(epoch, 100)` once for each epoch 0, 1, 2, ...:
each call multiplies every SIG entry by `(0.23 / 1.5) ^ (1 / 25)` exactly when
the current spread (entry 0) exceeds 0.23 and `epoch < 100`, and is a no-op
otherwise; consequently the spread is monotonically non-increasing, is ≤ 0.23
by epoch 25 (after the calls for epochs 0..24), and the whole layer state is
held constant from epoch 25 on. -/
theorem sig_schedule_c2 (p0 : ℝ) (sig0 : ℕ → ℝ) :
    (∀ n, n < 100 → 0.23 < (sigTraj p0 sig0 n).SIG 0 →
      (sigTraj p0 sig0 (n + 1)).SIG
        = fun i => (sigTraj p0 sig0 n).SIG i * gaussAlpha) ∧
    (∀ n, ¬ (n < 100 ∧ 0.23 < (sigTraj p0 sig0 n).SIG 0) →
      sigTraj p0 sig0 (n + 1) = sigTraj p0 sig0 n) ∧
    (∀ n i, (sigTraj p0 sig0 (n + 1)).SIG i ≤ (sigTraj p0 sig0 n).SIG i) ∧
    (∀ i, (sigTraj p0 sig0 25).SIG i ≤ 0.23) ∧
    (∀ n, 25 ≤ n → sigTraj p0 sig0 n = sigTraj p0 sig0 25) := by
  refine ⟨?_, ?_, ?_, ?_, fun n hn => sigTraj_freeze p0 sig0 n hn⟩
  · intro n hn hpos
    obtain ⟨hv, hsi, _⟩ := sigTraj_spec p0 sig0 n
    rw [show sigTraj p0 sig0 (n + 1)
          = decreaseSig (sigTraj p0 sig0 n) n 100 from rfl,
        decreaseSig_gauss_active _ n 100 hv ⟨hn, hpos⟩]
    simp only [hsi, decreaseSig_factor]
  · intro n hc
    rw [show sigTraj p0 sig0 (n + 1)
          = decreaseSig (sigTraj p0 sig0 n) n 100 from rfl,
        decreaseSig_gauss_idle _ n 100 hc]
  · intro n i
    obtain ⟨_, _, hS⟩ := sigTraj_spec p0 sig0 n
    obtain ⟨_, _, hS2⟩ := sigTraj_spec p0 sig0 (n + 1)
    rw [hS, hS2]
    simp only
    have h1 : gaussAlpha ^ (min (n + 1) 25) ≤ gaussAlpha ^ (min n 25) :=
      pow_le_pow_of_le_one gaussAlpha_pos.le gaussAlpha_lt_one.le (by omega)
    exact mul_le_mul_of_nonneg_left h1 (by norm_num)
  · intro i
    obtain ⟨_, _, hS⟩ := sigTraj_spec p0 sig0 25
    rw [hS]
    simp only [min_self, gaussAlpha_pow]
    norm_num

theorem sig_schedule_c2_witness :
    (sigTraj 0 (fun _ => 0) 1).SIG
        = (fun i => (sigTraj 0 (fun _ => 0) 0).SIG i * gaussAlpha) ∧
    sigTraj 0 (fun _ => 0) 26 = sigTraj 0 (fun _ => 0) 25 := by
  constructor
  · refine (sig_schedule_c2 0 (fun _ => 0)).1 0 (by norm_num) ?_
    rw [(sigTraj_spec 0 (fun _ => 0) 0).2.2]
    norm_num
  · exact (sig_schedule_c2 0 (fun _ => 0)).2.2.2.2 26 (by norm_num)

/-- C4: `BasicBlock.forward` returns
`spike2(norm2(conv2(spike1(norm1(conv1 x)))))` plus the residual
(`downsample x` when a downsample transform is supplied, else `x`); when `se`
is set, that main-path output is first multiplied elementwise by the gate
`spike4(sigmoid(conv4(spike3(conv3(gap out)))))` computed from the main-path
output, and the gated result is added to the residual.  The source inserts a
`ReLU` between `spike3` and `conv4`; under the hypothesis that the spike
activation never produces negative entries (spiking neurons emit 0/1 spike
tensors), that `ReLU` is the identity and the forward equals exactly the
claimed composition. -/
theorem block_forward_c4 {ι : Type} (se : Bool)
    (conv1 bn1 spiking1 conv2 bn2 spiking2 gap conv3 spiking3 conv4 spiking4 :
      (ι → ℝ) → (ι → ℝ))
    (ds : Option ((ι → ℝ) → (ι → ℝ))) (x : ι → ℝ)
    (h3 : ∀ (v : ι → ℝ) (i : ι), 0 ≤ spiking3 v i) :
    basicBlockForward
        (mkBlockFuns se conv1 bn1 spiking1 conv2 bn2 spiking2 ds
          gap conv3 spiking3 conv4 spiking4) x
      = some (fun i =>
          (if se then
            spiking2 (bn2 (conv2 (spiking1 (bn1 (conv1 x))))) i *
              spiking4 (sigmoidT (conv4 (spiking3 (conv3 (gap
                (spiking2 (bn2 (conv2 (spiking1 (bn1 (conv1 x))))))))))) i
          else
            spiking2 (bn2 (conv2 (spiking1 (bn1 (conv1 x))))) i)
          + (match ds with | some d => d x | none => x) i) := by
  have hrelu : reluT (spiking3 (conv3 (gap
        (spiking2 (bn2 (conv2 (spiking1 (bn1 (conv1 x)))))))))
      = spiking3 (conv3 (gap
          (spiking2 (bn2 (conv2 (spiking1 (bn1 (conv1 x)))))))) := by
    funext j
    exact max_eq_right (h3 _ j)
  cases se with
  | false => rfl
  | true =>
    simp only [basicBlockForward, mkBlockFuns, if_true, hrelu]

theorem block_forward_c4_witness :
    basicBlockForward
        (mkBlockFuns true id id id id id id none id id
          (fun _ _ => (1 : ℝ)) id id) (fun _ : Fin 1 => (2 : ℝ))
      = some (fun i => (fun _ : Fin 1 => (2 : ℝ)) i
          * sigmoidT (fun _ : Fin 1 => (1 : ℝ)) i
          + (fun _ : Fin 1 => (2 : ℝ)) i) := by
  rw [block_forward_c4 true id id id id id id id id (fun _ _ => 1) id id none
        (fun _ => 2) (fun v i => by norm_num)]
  simp
